import Mathlib

/-!
Verification of a redux / react-redux style state container.

This file shallowly embeds the store (`createStore.js`), the reducer
composer (`combineReducers`), the middleware composition (`compose.js`),
the connect container's stateful selector (`makeSelectorStateful` /
`Connect.render` in `connectAdvanced`) and the store's observable export,
and proves the specification's testable properties about them.

JS values are modelled up to `===`: an abstract value is a `Nat`, so that
distinct numbers are distinct references/values and `===` is `=` on `Nat`.
Listener callbacks are identified by `Nat` ids; the store-visible behaviour
of a listener (subscribe / unsubscribe calls it performs when invoked) is
given by an effect map `Nat → LEffect`.
-/

set_option maxHeartbeats 1000000

namespace Spec2Proof

/-- A JS value passed to `dispatch`: either some value failing lodash's
`isPlainObject` test, or a plain object whose `type` field holds `tp`
(`none` = the field is `undefined` / absent) plus an opaque payload. -/
inductive JSAction where
  | nonPlain (payload : Nat)
  | plain (tp : Option String) (payload : Nat)
deriving DecidableEq

/-- The lodash `isPlainObject(action)` test, specialised to our action model. -/
def isPlainObject : JSAction → Bool
  | .nonPlain _ => false
  | .plain _ _ => true

/-- The `action.type` field (`none` = `undefined`).  `dispatch` only reads it after the
`isPlainObject` guard, so the value on a non-plain action is irrelevant. -/
def actionType : JSAction → Option String
  | .nonPlain _ => none
  | .plain tp _ => tp

/-- An action accepted by `dispatch`: a plain object with a defined `type`. -/
def wellFormedAction (a : JSAction) : Prop :=
  isPlainObject a = true ∧ (actionType a).isSome = true

instance : DecidablePred wellFormedAction := fun a => by
  unfold wellFormedAction; infer_instance

/-- What a listener callback does to the store when invoked during the
notification loop of `dispatch`: nothing, call an `unsubscribe` closure for
listener `target`, or call `store.subscribe` registering listener `newId`. -/
inductive LEffect where
  | pure
  | unsub (target : Nat)
  | sub (newId : Nat)
deriving DecidableEq

/-- The closure state of `createStore`: `currentState`, the two listener
list references `currentListeners` / `nextListeners`, whether the two
references alias the same array (`nextIsCurrent` models
`nextListeners === currentListeners`), the set of listener ids whose
per-subscription `isSubscribed` flag is still true, and `isDispatching`. -/
structure Store (σ : Type) where
  currentState : σ
  currentListeners : List Nat
  nextListeners : List Nat
  nextIsCurrent : Bool
  active : List Nat
  isDispatching : Bool
deriving DecidableEq

/-- Function `ensureCanMutateNextListeners`: if `nextListeners === currentListeners`,
replace `nextListeners` with a copy (`currentListeners.slice()`), so that
mutations of `nextListeners` do not affect the list being iterated. -/
def ensureCanMutateNextListeners {σ : Type} (st : Store σ) : Store σ :=
  if st.nextIsCurrent then
    { st with nextListeners := st.currentListeners, nextIsCurrent := false }
  else st

/-- Function `subscribe(listener)` with listener id `id`: sets the closure flag
`isSubscribed = true` (membership in `active`), calls
`ensureCanMutateNextListeners()`, then pushes the listener. -/
def subscribeListener {σ : Type} (id : Nat) (st : Store σ) : Store σ :=
  let st1 := ensureCanMutateNextListeners { st with active := id :: st.active }
  { st1 with nextListeners := st1.nextListeners ++ [id] }

/-- The splice `nextListeners.splice(nextListeners.indexOf(listener), 1)`: remove the
first occurrence; when `indexOf` returns `-1`, `splice(-1, 1)` removes the
last element of the array. -/
def removeListener (listener : Nat) (nextListeners : List Nat) : List Nat :=
  match nextListeners.findIdx? (fun x => x == listener) with
  | some index => nextListeners.eraseIdx index
  | none => nextListeners.dropLast

/-- The `unsubscribe` closure returned by `subscribe` for listener `id`:
no-op when its `isSubscribed` flag is already false; otherwise clears the
flag, calls `ensureCanMutateNextListeners()` and splices the listener out. -/
def unsubscribeListener {σ : Type} (id : Nat) (st : Store σ) : Store σ :=
  if id ∈ st.active then
    let st1 := ensureCanMutateNextListeners { st with active := st.active.erase id }
    { st1 with nextListeners := removeListener id st1.nextListeners }
  else st

/-- Run the store-visible effect of invoking listener `id`. -/
def applyEffect {σ : Type} (spec : Nat → LEffect) (st : Store σ) (id : Nat) : Store σ :=
  match spec id with
  | .pure => st
  | .unsub t => unsubscribeListener t st
  | .sub n => subscribeListener n st

/-- Errors `dispatch` can throw: the two action-shape guards, the
reentrancy guard, and an exception `e` propagated out of the reducer. -/
inductive DispatchError (ε : Type) where
  | notPlainObject
  | undefinedType
  | reducersMayNotDispatch
  | reducerThrew (e : ε)
deriving DecidableEq

/-- Function `dispatch(action)` from `createStore.js`.  The reducer may throw (`.error`).
Returns the store closure state after the call (also when it throws, since
the `finally` block still runs), the list of listener ids invoked by the
notification loop (in invocation order), and the result: the action echoed
back, or the error thrown. -/
def dispatch {σ ε : Type} (currentReducer : σ → JSAction → Except ε σ)
    (spec : Nat → LEffect) (st : Store σ) (action : JSAction) :
    Store σ × List Nat × Except (DispatchError ε) JSAction :=
  if isPlainObject action = false then
    (st, [], .error .notPlainObject)
  else if (actionType action).isNone then
    (st, [], .error .undefinedType)
  else if st.isDispatching then
    (st, [], .error .reducersMayNotDispatch)
  else
    match currentReducer st.currentState action with
    | .error e =>
        ({ st with isDispatching := false }, [], .error (.reducerThrew e))
    | .ok nextState =>
        let listeners := st.nextListeners
        let st1 : Store σ :=
          { st with currentState := nextState, isDispatching := false,
                    currentListeners := st.nextListeners, nextIsCurrent := true }
        (listeners.foldl (applyEffect spec) st1, listeners, .ok action)

/-- Repeated top-level dispatch of a list of actions, threading the store. -/
def dispatchSeq {σ ε : Type} (r : σ → JSAction → Except ε σ)
    (spec : Nat → LEffect) (st : Store σ) : List JSAction → Store σ
  | [] => st
  | a :: rest => dispatchSeq r spec (dispatch r spec st a).1 rest

/-- Function `compose(...funcs)` from `compose.js`: empty → `arg => arg`, singleton →
the function itself, otherwise `funcs.reduce((a, b) => (...args) => a(b(...args)))`
(a left fold over the tail with the head as the accumulator). -/
def compose {α : Type} (funcs : List (α → α)) : α → α :=
  match funcs with
  | [] => fun arg => arg
  | [f] => f
  | f :: g :: rest => (g :: rest).foldl (fun a b => fun x => a (b x)) f

/-- C6: `compose()()` is the identity on any single argument; `compose(f)`
equals `f`; and `compose(f, g)(x) === f(g(x))` (right-to-left composition). -/
theorem compose_identity_single_pair {α : Type} (f g : α → α) (x : α) :
    compose ([] : List (α → α)) x = x ∧ compose [f] = f ∧ compose [f, g] x = f (g x) :=
  ⟨rfl, rfl, rfl⟩

/-! ### Listener effects leave the reducer-facing store fields alone -/

theorem ensure_core {σ : Type} (st : Store σ) :
    (ensureCanMutateNextListeners st).currentState = st.currentState ∧
    (ensureCanMutateNextListeners st).isDispatching = st.isDispatching ∧
    (ensureCanMutateNextListeners st).currentListeners = st.currentListeners := by
  unfold ensureCanMutateNextListeners
  split <;> simp

theorem subscribeListener_core {σ : Type} (id : Nat) (st : Store σ) :
    (subscribeListener id st).currentState = st.currentState ∧
    (subscribeListener id st).isDispatching = st.isDispatching ∧
    (subscribeListener id st).currentListeners = st.currentListeners := by
  unfold subscribeListener
  have h := ensure_core (σ := σ) { st with active := id :: st.active }
  simp_all

theorem unsubscribeListener_core {σ : Type} (id : Nat) (st : Store σ) :
    (unsubscribeListener id st).currentState = st.currentState ∧
    (unsubscribeListener id st).isDispatching = st.isDispatching ∧
    (unsubscribeListener id st).currentListeners = st.currentListeners := by
  unfold unsubscribeListener
  split
  · have h := ensure_core (σ := σ) { st with active := st.active.erase id }
    simp_all
  · simp

theorem applyEffect_core {σ : Type} (spec : Nat → LEffect) (st : Store σ) (id : Nat) :
    (applyEffect spec st id).currentState = st.currentState ∧
    (applyEffect spec st id).isDispatching = st.isDispatching ∧
    (applyEffect spec st id).currentListeners = st.currentListeners := by
  unfold applyEffect
  split
  · simp
  · exact unsubscribeListener_core _ _
  · exact subscribeListener_core _ _

theorem foldl_applyEffect_core {σ : Type} (spec : Nat → LEffect) (L : List Nat)
    (st : Store σ) :
    (L.foldl (applyEffect spec) st).currentState = st.currentState ∧
    (L.foldl (applyEffect spec) st).isDispatching = st.isDispatching ∧
    (L.foldl (applyEffect spec) st).currentListeners = st.currentListeners := by
  induction L generalizing st with
  | nil => simp
  | cons j rest ih =>
      have h1 := applyEffect_core spec st j
      have h2 := ih (applyEffect spec st j)
      simp only [List.foldl_cons]
      exact ⟨h2.1.trans h1.1, h2.2.1.trans h1.2.1, h2.2.2.trans h1.2.2⟩

/-! ### Basic dispatch facts -/

/-- A successful dispatch: guards pass, the reducer returns normally. -/
theorem dispatch_ok {σ ε : Type} (r : σ → JSAction → Except ε σ)
    (spec : Nat → LEffect) (st : Store σ) (a : JSAction) (s1 : σ)
    (hwf : wellFormedAction a) (hd : st.isDispatching = false)
    (hr : r st.currentState a = .ok s1) :
    (dispatch r spec st a).1.currentState = s1 ∧
    (dispatch r spec st a).1.isDispatching = false ∧
    (dispatch r spec st a).2.1 = st.nextListeners ∧
    (dispatch r spec st a).2.2 = .ok a := by
  obtain ⟨hp, ht⟩ := hwf
  have htn : (actionType a).isNone = false := by
    cases h : actionType a <;> simp_all
  unfold dispatch
  simp only [hp, htn, hd, hr]
  have hcore := foldl_applyEffect_core spec st.nextListeners
    { st with currentState := s1, isDispatching := false,
              currentListeners := st.nextListeners, nextIsCurrent := true }
  simp_all

/-- Function `dispatch` never leaves `isDispatching` set when it was clear on entry:
the `finally` block clears it even when the reducer throws. -/
theorem dispatch_clears_flag {σ ε : Type} (r : σ → JSAction → Except ε σ)
    (spec : Nat → LEffect) (st : Store σ) (a : JSAction)
    (hd : st.isDispatching = false) :
    (dispatch r spec st a).1.isDispatching = false := by
  unfold dispatch
  split
  · simpa using hd
  · split
    · simpa using hd
    · split
      · simp_all
      · split
        · simp
        · exact (foldl_applyEffect_core _ _ _).2.1

/-- A dispatch on a store that is not mid-reducer is never rejected by the
reentrancy guard (whatever else it may do). -/
theorem dispatch_not_reentrancy_error {σ ε : Type} (r : σ → JSAction → Except ε σ)
    (spec : Nat → LEffect) (st : Store σ) (a : JSAction)
    (hd : st.isDispatching = false) :
    (dispatch r spec st a).2.2 ≠ .error DispatchError.reducersMayNotDispatch := by
  unfold dispatch
  split
  · simp
  · split
    · simp
    · split
      · simp_all
      · split <;> simp

/-- Function `dispatchSeq` distributes over list append. -/
theorem dispatchSeq_append {σ ε : Type} (r : σ → JSAction → Except ε σ)
    (spec : Nat → LEffect) (st : Store σ) (l1 l2 : List JSAction) :
    dispatchSeq r spec st (l1 ++ l2) = dispatchSeq r spec (dispatchSeq r spec st l1) l2 := by
  induction l1 generalizing st with
  | nil => simp [dispatchSeq]
  | cons a rest ih => simp [dispatchSeq, ih]

/-- Function `dispatchSeq` preserves a clear `isDispatching` flag. -/
theorem dispatchSeq_clears_flag {σ ε : Type} (r : σ → JSAction → Except ε σ)
    (spec : Nat → LEffect) (st : Store σ) (l : List JSAction)
    (hd : st.isDispatching = false) :
    (dispatchSeq r spec st l).isDispatching = false := by
  induction l generalizing st with
  | nil => simpa [dispatchSeq]
  | cons a rest ih =>
      simp only [dispatchSeq]
      exact ih _ (dispatch_clears_flag r spec st a hd)

/-- C1: for every sequence of dispatched well-formed actions, the state held
after the N-th dispatch (as returned by `getState()`) equals the current
reducer applied to the state held after dispatch N-1 and action N. -/
theorem dispatch_sequence_state {σ : Type} (f : σ → JSAction → σ)
    (spec : Nat → LEffect) (st : Store σ) (actions : List JSAction)
    (hwf : ∀ a ∈ actions, wellFormedAction a)
    (hd : st.isDispatching = false)
    (n : Nat) (hn : n < actions.length) :
    (dispatchSeq (fun s a => (Except.ok (f s a) : Except Unit σ)) spec st
        (actions.take (n + 1))).currentState
      = f (dispatchSeq (fun s a => (Except.ok (f s a) : Except Unit σ)) spec st
            (actions.take n)).currentState
          (actions.get ⟨n, hn⟩) := by
  have htake : actions.take (n + 1) = actions.take n ++ [actions.get ⟨n, hn⟩] := by
    rw [List.take_succ, List.getElem?_eq_getElem hn]
    simp
  rw [htake, dispatchSeq_append]
  set stN := dispatchSeq (fun s a => (Except.ok (f s a) : Except Unit σ)) spec st
    (actions.take n) with hstN
  have hdN : stN.isDispatching = false := dispatchSeq_clears_flag _ _ _ _ hd
  have hmem : actions.get ⟨n, hn⟩ ∈ actions := actions.get_mem _ _
  have hstep := dispatch_ok (fun s a => (Except.ok (f s a) : Except Unit σ)) spec stN
    (actions.get ⟨n, hn⟩) (f stN.currentState (actions.get ⟨n, hn⟩)) (hwf _ hmem) hdN rfl
  simp only [dispatchSeq]
  exact hstep.1

/-- C1 witness. -/
theorem dispatch_sequence_state_witness :
    (∀ a ∈ [JSAction.plain (some "INC") 0, JSAction.plain (some "INC") 1],
        wellFormedAction a) ∧
    (dispatchSeq (fun (s : Nat) (_ : JSAction) => (Except.ok (s + 1) : Except Unit Nat)) (fun _ => LEffect.pure)
        { currentState := 0, currentListeners := [], nextListeners := [],
          nextIsCurrent := true, active := [], isDispatching := false }
        ([JSAction.plain (some "INC") 0, JSAction.plain (some "INC") 1].take (1 + 1))).currentState
      = ((dispatchSeq (fun (s : Nat) (_ : JSAction) => (Except.ok (s + 1) : Except Unit Nat)) (fun _ => LEffect.pure)
          { currentState := 0, currentListeners := [], nextListeners := [],
            nextIsCurrent := true, active := [], isDispatching := false }
          ([JSAction.plain (some "INC") 0, JSAction.plain (some "INC") 1].take 1)).currentState
          + 1) := by
  refine ⟨by decide, ?_⟩
  exact dispatch_sequence_state (fun s _ => s + 1) (fun _ => LEffect.pure)
    { currentState := 0, currentListeners := [], nextListeners := [],
      nextIsCurrent := true, active := [], isDispatching := false }
    [JSAction.plain (some "INC") 0, JSAction.plain (some "INC") 1]
    (by decide) rfl 1 (by decide)

/-- C2: dispatching a non-plain value, or a plain record whose `type` is
undefined, throws before the reducer is invoked (the call's outcome does not
depend on the reducer at all), no listener fires, and the state after the
failed call equals the state before it. -/
theorem dispatch_invalid_action {σ ε : Type} (r r1 : σ → JSAction → Except ε σ)
    (spec : Nat → LEffect) (st : Store σ) (a : JSAction)
    (h : ¬ wellFormedAction a) :
    (dispatch r spec st a).1 = st ∧
    (dispatch r spec st a).2.1 = [] ∧
    (∃ e, (dispatch r spec st a).2.2 = .error e) ∧
    dispatch r spec st a = dispatch r1 spec st a := by
  unfold wellFormedAction at h
  push_neg at h
  by_cases hp : isPlainObject a = true
  · have ht : (actionType a).isNone = true := by
      have := h hp
      cases hta : actionType a <;> simp_all
    unfold dispatch
    simp [hp, ht]
  · have hp2 : isPlainObject a = false := by simp_all
    unfold dispatch
    simp [hp2]

/-- C2 witness. -/
theorem dispatch_invalid_action_witness :
    (¬ wellFormedAction (JSAction.plain none 0)) ∧
    (dispatch (fun (s : Nat) _ => (Except.ok (s + 1) : Except Unit Nat)) (fun _ => LEffect.pure)
      { currentState := 5, currentListeners := [], nextListeners := [],
        nextIsCurrent := true, active := [], isDispatching := false }
      (JSAction.plain none 0)).1
      = { currentState := 5, currentListeners := [], nextListeners := [],
          nextIsCurrent := true, active := [], isDispatching := false } := by
  refine ⟨by decide, ?_⟩
  exact (dispatch_invalid_action (fun (s : Nat) _ => (Except.ok (s + 1) : Except Unit Nat))
    (fun s _ => (Except.ok s : Except Unit Nat)) (fun _ => LEffect.pure)
    { currentState := 5, currentListeners := [], nextListeners := [],
      nextIsCurrent := true, active := [], isDispatching := false }
    (JSAction.plain none 0) (by decide)).1

/-- C3: a dispatch issued while a reducer invocation is in progress throws
and leaves the store unchanged; and whenever `isDispatching` is clear on
entry it is clear again after `dispatch` returns — whether the reducer
returned normally or threw — so a subsequent dispatch is never rejected by
the reentrancy guard. -/
theorem dispatch_reentrancy_guard {σ ε : Type} (r r2 : σ → JSAction → Except ε σ)
    (spec spec2 : Nat → LEffect) (st : Store σ) (a a2 : JSAction)
    (hwf : wellFormedAction a) :
    (st.isDispatching = true →
      dispatch r spec st a = (st, [], .error DispatchError.reducersMayNotDispatch)) ∧
    (st.isDispatching = false →
      (dispatch r spec st a).1.isDispatching = false ∧
      (dispatch r2 spec2 (dispatch r spec st a).1 a2).2.2
        ≠ .error DispatchError.reducersMayNotDispatch) := by
  obtain ⟨hp, ht⟩ := hwf
  have htn : (actionType a).isNone = false := by
    cases h : actionType a <;> simp_all
  constructor
  · intro hd
    unfold dispatch
    simp [hp, htn, hd]
  · intro hd
    refine ⟨dispatch_clears_flag r spec st a hd, ?_⟩
    exact dispatch_not_reentrancy_error r2 spec2 _ a2
      (dispatch_clears_flag r spec st a hd)

/-- C3 witness: the reducer throws, yet the flag is clear afterwards and the
next dispatch is not rejected by the reentrancy guard; a mid-reducer
dispatch is rejected unchanged. -/
theorem dispatch_reentrancy_guard_witness :
    wellFormedAction (JSAction.plain (some "A") 0) ∧
    (dispatch (fun (_ : Nat) _ => (Except.error 7 : Except Nat Nat)) (fun _ => LEffect.pure)
      { currentState := 1, currentListeners := [], nextListeners := [],
        nextIsCurrent := true, active := [], isDispatching := true }
      (JSAction.plain (some "A") 0)
      = ({ currentState := 1, currentListeners := [], nextListeners := [],
           nextIsCurrent := true, active := [], isDispatching := true }, [],
         .error DispatchError.reducersMayNotDispatch)) := by
  refine ⟨by decide, ?_⟩
  exact (dispatch_reentrancy_guard (fun (_ : Nat) _ => (Except.error 7 : Except Nat Nat))
    (fun _ _ => Except.ok 0) (fun _ => LEffect.pure) (fun _ => LEffect.pure)
    { currentState := 1, currentListeners := [], nextListeners := [],
      nextIsCurrent := true, active := [], isDispatching := true }
    (JSAction.plain (some "A") 0) (JSAction.plain (some "B") 0) (by decide)).1 rfl

/-! ### combineReducers (`src/unnamed/part_004`) -/

/-- The private `ActionTypes.INIT` type from `createStore.js`. -/
def ActionTypesINIT : String := "@@redux/INIT"

/-- A sub-reducer over one state slice.  Slices are abstract JS values up to
`===` (a `Nat`); `none` is `undefined`. -/
abbrev SubReducer := Option Nat → JSAction → Option Nat

/-- The two errors `assertReducerShape` can throw, tagged with the key. -/
inductive ShapeError where
  | initUndefined (key : String)
  | probeUndefined (key : String)
deriving DecidableEq

/-- Function `assertReducerShape(reducers)`: probe each sub-reducer, in key order,
with the private init action and with a random unknown action type
(`probeType` stands for the generated `@@redux/PROBE_UNKNOWN_ACTION_...`
string); the first probe returning `undefined` throws. -/
def assertReducerShape (probeType : String) :
    List (String × SubReducer) → Option ShapeError
  | [] => none
  | (key, reducer) :: rest =>
      if reducer none (JSAction.plain (some ActionTypesINIT) 0) = none then
        some (.initUndefined key)
      else if reducer none (JSAction.plain (some probeType) 0) = none then
        some (.probeUndefined key)
      else assertReducerShape probeType rest

/-- The value returned by `combineReducers(reducers)`: the reducer map (the
`typeof === 'function'` filter keeps every entry in this embedding, where
all values are functions) together with `shapeAssertionError`, the error
captured by the `try { assertReducerShape(...) } catch (e) { ... }` block —
`combineReducers` itself returns normally even when a probe fails. -/
structure CombinedReducer where
  finalReducers : List (String × SubReducer)
  shapeAssertionError : Option ShapeError

def combineReducers (probeType : String)
    (reducers : List (String × SubReducer)) : CombinedReducer :=
  { finalReducers := reducers,
    shapeAssertionError := assertReducerShape probeType reducers }

/-- Errors thrown by an invocation of the combined reducer. -/
inductive CombinationError where
  | shapeError (e : ShapeError)
  | undefinedStateForKey (key : String) (tp : Option String)
deriving DecidableEq

/-- The `for` loop of `combination`: iterate `finalReducerKeys` in order,
throw on the first sub-reducer returning `undefined` (the loop does not
continue), accumulate `nextState[key] = nextStateForKey` and
`hasChanged = hasChanged || nextStateForKey !== previousStateForKey`. -/
def combinationGo (state : List (String × Nat)) (action : JSAction) :
    List (String × SubReducer) → List (String × Nat) → Bool →
    Except CombinationError (List (String × Nat) × Bool)
  | [], nextState, hasChanged => .ok (nextState, hasChanged)
  | (key, reducer) :: rest, nextState, hasChanged =>
      match reducer (state.lookup key) action with
      | none => .error (.undefinedStateForKey key (actionType action))
      | some nextStateForKey =>
          combinationGo state action rest (nextState ++ [(key, nextStateForKey)])
            (hasChanged || decide (some nextStateForKey ≠ state.lookup key))

/-- The combined reducer `combination(state, action)`: first throw the
captured shape-assertion error if there is one, then run the key loop, then
`return hasChanged ? nextState : state`.  In the result, `.ok none` means
the very same `state` object reference was returned and `.ok (some ns)`
means a newly assembled record with fields `ns`. -/
def combination (cr : CombinedReducer) (state : List (String × Nat))
    (action : JSAction) : Except CombinationError (Option (List (String × Nat))) :=
  match cr.shapeAssertionError with
  | some e => .error (.shapeError e)
  | none =>
      match combinationGo state action cr.finalReducers [] false with
      | .error e => .error e
      | .ok (nextState, hasChanged) =>
          .ok (if hasChanged then some nextState else none)

/-- Whether a sub-reducer entry changes its slice by identity on the given
state and action. -/
def sliceChanged (state : List (String × Nat)) (action : JSAction)
    (p : String × SubReducer) : Bool :=
  decide (p.2 (state.lookup p.1) action ≠ state.lookup p.1)

/-- When every sub-reducer returns a defined slice, the loop succeeds and
its `hasChanged` flag is the disjunction of the per-key identity changes. -/
theorem combinationGo_spec (state : List (String × Nat)) (action : JSAction)
    (l : List (String × SubReducer)) (acc : List (String × Nat)) (hc : Bool)
    (hdef : ∀ p ∈ l, (p.2 (state.lookup p.1) action).isSome = true) :
    ∃ ns, combinationGo state action l acc hc
      = .ok (ns, hc || l.any (sliceChanged state action)) := by
  induction l generalizing acc hc with
  | nil => exact ⟨acc, by simp [combinationGo]⟩
  | cons p rest ih =>
      obtain ⟨key, reducer⟩ := p
      have hs := hdef (key, reducer) (List.mem_cons_self _ _)
      obtain ⟨v, hv⟩ := Option.isSome_iff_exists.mp hs
      have hrest : ∀ q ∈ rest, (q.2 (state.lookup q.1) action).isSome = true :=
        fun q hq => hdef q (List.mem_cons_of_mem _ hq)
      obtain ⟨ns, hns⟩ := ih (acc ++ [(key, v)])
        (hc || decide (some v ≠ state.lookup key)) hrest
      refine ⟨ns, ?_⟩
      have hv2 : reducer (state.lookup key) action = some v := hv
      have hsc : sliceChanged state action (key, reducer)
          = decide (some v ≠ state.lookup key) := by
        simp only [sliceChanged, Prod.fst, Prod.snd]
        exact decide_eq_decide.mpr (by rw [hv2])
      simp only [combinationGo, hv2, hns, List.any_cons, hsc]
      rw [Bool.or_assoc]

/-- C4: when the shape probes pass and every sub-reducer returns a defined
slice, the combined reducer returns the *same* object reference as its
input `state` exactly when every sub-reducer returns its previous slice by
identity, and a newly assembled record when at least one returns a
different value by identity. -/
theorem combination_identity_stability (probeType : String)
    (reducers : List (String × SubReducer)) (state : List (String × Nat))
    (action : JSAction)
    (hshape : assertReducerShape probeType reducers = none)
    (hdef : ∀ p ∈ reducers, (p.2 (state.lookup p.1) action).isSome = true) :
    ((∀ p ∈ reducers, p.2 (state.lookup p.1) action = state.lookup p.1) →
      combination (combineReducers probeType reducers) state action = .ok none) ∧
    ((∃ p ∈ reducers, p.2 (state.lookup p.1) action ≠ state.lookup p.1) →
      ∃ ns, combination (combineReducers probeType reducers) state action
        = .ok (some ns)) := by
  obtain ⟨ns, hns⟩ := combinationGo_spec state action reducers [] false hdef
  constructor
  · intro hsame
    have hany : reducers.any (sliceChanged state action) = false := by
      simp only [List.any_eq_false, sliceChanged]
      intro p hp
      simp [hsame p hp]
    unfold combination combineReducers
    simp only [hshape, hns, hany, Bool.false_or]
    simp
  · intro ⟨p, hp, hcp⟩
    have hany : reducers.any (sliceChanged state action) = true := by
      refine List.any_eq_true.mpr ⟨p, hp, ?_⟩
      simp [sliceChanged, hcp]
    refine ⟨ns, ?_⟩
    unfold combination combineReducers
    simp only [hshape, hns, hany, Bool.false_or]
    simp

/-- C4 witness: one identity-preserving sub-reducer over a one-key state —
the combined reducer hands back the original state object. -/
theorem combination_identity_stability_witness :
    assertReducerShape "@@redux/PROBE_X" [("a", fun prev _ => some (prev.getD 0))] = none ∧
    combination
      (combineReducers "@@redux/PROBE_X" [("a", fun prev _ => some (prev.getD 0))])
      [("a", 3)] (JSAction.plain (some "X") 0) = .ok none := by
  refine ⟨by decide, ?_⟩
  exact (combination_identity_stability "@@redux/PROBE_X"
    [("a", fun prev _ => some (prev.getD 0))] [("a", 3)]
    (JSAction.plain (some "X") 0) (by decide) (by decide)).1 (by decide)

/-- C5: when a sub-reducer fails the composition-time shape probes,
`combineReducers` still returns normally — the error is only captured in
`shapeAssertionError` — and the captured error is thrown by the first (and
every) invocation of the combined reducer. -/
theorem combineReducers_defers_shape_error (probeType : String)
    (reducers : List (String × SubReducer)) (state : List (String × Nat))
    (action : JSAction) (e : ShapeError)
    (h : assertReducerShape probeType reducers = some e) :
    (combineReducers probeType reducers).shapeAssertionError = some e ∧
    combination (combineReducers probeType reducers) state action
      = .error (.shapeError e) := by
  unfold combination combineReducers
  simp [h]

/-- C5 witness: a sub-reducer that always returns `undefined` fails the init
probe; the combined reducer throws that captured error when first invoked. -/
theorem combineReducers_defers_shape_error_witness :
    assertReducerShape "@@redux/PROBE_X" [("k", fun _ _ => none)]
      = some (ShapeError.initUndefined "k") ∧
    combination (combineReducers "@@redux/PROBE_X" [("k", fun _ _ => none)])
      [] (JSAction.plain (some "X") 0)
      = .error (.shapeError (ShapeError.initUndefined "k")) := by
  refine ⟨by decide, ?_⟩
  exact (combineReducers_defers_shape_error "@@redux/PROBE_X"
    [("k", fun _ _ => none)] [] (JSAction.plain (some "X") 0)
    (ShapeError.initUndefined "k") (by decide)).2

/-! ### The stateful selector of connectAdvanced (C9) -/

/-- The memo cell built by `makeSelectorStateful`: the last computed props
(`none` = still `undefined`), the last captured error, and the
`shouldComponentUpdate` change flag.  Props are compared with `!==`, so `P`
carries decidable equality standing for JS identity. -/
structure SelectorCell (P E : Type) where
  props : Option P
  err : Option E
  shouldComponentUpdate : Bool
deriving DecidableEq

/-- Method `selector.run(props)` from `makeSelectorStateful`: call
`sourceSelector(store.getState(), props)` inside `try`; on success, if the
result differs by identity from the cached props or an error is pending,
set the change flag, cache the new props and clear the error (otherwise
leave the cell untouched); on `catch`, set the change flag and store the
error on the cell instead of letting it propagate. -/
def runComponentSelector {σ ρ P E : Type} [DecidableEq P]
    (sourceSelector : σ → ρ → Except E P) (storeState : σ)
    (cell : SelectorCell P E) (ownProps : ρ) : SelectorCell P E :=
  match sourceSelector storeState ownProps with
  | .ok nextProps =>
      if some nextProps ≠ cell.props ∨ cell.err.isSome then
        { shouldComponentUpdate := true, props := some nextProps, err := none }
      else cell
  | .error e => { cell with shouldComponentUpdate := true, err := some e }

/-- Method `Connect.render`: clear `shouldComponentUpdate`, then `throw
selector.error` if one is stored, otherwise create the wrapped element from
the cached props.  Returns the updated cell and the render outcome. -/
def connectRender {P E : Type} (cell : SelectorCell P E) :
    SelectorCell P E × Except E (Option P) :=
  let cell1 := { cell with shouldComponentUpdate := false }
  match cell1.err with
  | some e => (cell1, .error e)
  | none => (cell1, .ok cell1.props)

/-- C9: when the selector throws during a container's recompute, the error
is stored on the memo cell together with the set change flag — the cached
props are kept and `run` itself returns normally, so nothing propagates
from the notification — and the stored error is then thrown synchronously
the next time the container renders. -/
theorem selector_error_captured_and_rethrown {σ ρ P E : Type} [DecidableEq P]
    (sourceSelector : σ → ρ → Except E P) (storeState : σ)
    (cell : SelectorCell P E) (ownProps : ρ) (e : E)
    (h : sourceSelector storeState ownProps = .error e) :
    (runComponentSelector sourceSelector storeState cell ownProps).err = some e ∧
    (runComponentSelector sourceSelector storeState cell ownProps).shouldComponentUpdate
      = true ∧
    (runComponentSelector sourceSelector storeState cell ownProps).props = cell.props ∧
    (connectRender (runComponentSelector sourceSelector storeState cell ownProps)).2
      = .error e := by
  unfold runComponentSelector
  rw [h]
  simp [connectRender]

/-- C9 witness. -/
theorem selector_error_captured_and_rethrown_witness :
    ((fun (_ : Nat) (_ : Nat) => (Except.error "boom" : Except String Nat)) 0 0
      = .error "boom") ∧
    (connectRender (runComponentSelector
        (fun (_ : Nat) (_ : Nat) => (Except.error "boom" : Except String Nat)) 0
        { props := some 9, err := none, shouldComponentUpdate := false } 0)).2
      = .error "boom" := by
  refine ⟨rfl, ?_⟩
  exact (selector_error_captured_and_rethrown
    (fun (_ : Nat) (_ : Nat) => (Except.error "boom" : Except String Nat)) 0
    { props := some 9, err := none, shouldComponentUpdate := false } 0 "boom" rfl).2.2.2

/-! ### The observable export (C10) -/

/-- An argument to the observable's `subscribe`: `isObjectType` models
`typeof observer === 'object'` and `hasNext` models `observer.next` being
truthy. -/
structure Observer where
  isObjectType : Bool
  hasNext : Bool
deriving DecidableEq

/-- Method `observable().subscribe(observer)` from `createStore.js`: throws a
`TypeError` unless `typeof observer === 'object'`; otherwise runs
`observeState()` once — which calls `observer.next(getState())` when `next`
is present — and then registers `observeState` as a store listener (id
`freshId`).  Returns the new store together with the list of arguments
`observer.next` was called with during the call. -/
def observableSubscribe {σ : Type} (freshId : Nat) (st : Store σ)
    (observer : Observer) : Except String (Store σ × List σ) :=
  if observer.isObjectType = false then
    .error "Expected the observer to be an object."
  else
    let nextCalls := if observer.hasNext then [st.currentState] else []
    .ok (subscribeListener freshId st, nextCalls)

/-- C10: subscribing an object observer that has a `next` method invokes
`observer.next` synchronously, exactly once, with the state current at
subscription time — i.e. before any subsequent dispatch — while also
registering the observer's listener; subscribing a non-object throws a
`TypeError`. -/
theorem observable_subscribe_behavior {σ : Type} (freshId : Nat) (st : Store σ)
    (observer : Observer) :
    (observer.isObjectType = true → observer.hasNext = true →
      observableSubscribe freshId st observer
        = .ok (subscribeListener freshId st, [st.currentState])) ∧
    (observer.isObjectType = false →
      observableSubscribe freshId st observer
        = .error "Expected the observer to be an object.") := by
  constructor
  · intro h1 h2
    unfold observableSubscribe
    simp [h1, h2]
  · intro h1
    unfold observableSubscribe
    simp [h1]

/-- C10 witness. -/
theorem observable_subscribe_behavior_witness :
    ((Observer.mk true true).isObjectType = true ∧ (Observer.mk true true).hasNext = true) ∧
    observableSubscribe 0
      { currentState := (42 : Nat), currentListeners := [], nextListeners := [],
        nextIsCurrent := true, active := [], isDispatching := false }
      (Observer.mk true true)
      = .ok (subscribeListener 0
          { currentState := (42 : Nat), currentListeners := [], nextListeners := [],
            nextIsCurrent := true, active := [], isDispatching := false },
          [42]) := by
  refine ⟨⟨rfl, rfl⟩, ?_⟩
  exact (observable_subscribe_behavior 0
    { currentState := (42 : Nat), currentListeners := [], nextListeners := [],
      nextIsCurrent := true, active := [], isDispatching := false }
    (Observer.mk true true)).1 rfl rfl

/-! ### Hierarchical top-down notification (C8) -/

mutual
/-- A mounted connect container: its id, whether its selector run during
this notification sets `shouldComponentUpdate` (forcing a host re-render
before `componentDidUpdate` fires), and its child subscription nodes in
registration order. -/
inductive ContainerTree where
  | node (id : Nat) (shouldUpdate : Bool) (children : ContainerForest)
/-- The ordered child containers registered on one subscription node. -/
inductive ContainerForest where
  | nil
  | cons (c : ContainerTree) (rest : ContainerForest)
end

/-- Events in the linearised execution of one store notification reaching
the root of a container subtree: a container's selector recompute, and the
completion of its host re-render. -/
inductive UIEvent where
  | selectorRun (id : Nat)
  | hostUpdateDone (id : Nat)
deriving DecidableEq

mutual
/-- Method `Connect.onStateChange` (from `connectAdvanced`, concatenated into
`src/react-redux/connect/mergeProps.js`): run the selector; when
`shouldComponentUpdate` is not set, notify nested subscriptions at once;
otherwise install `notifyNestedSubsOnComponentDidUpdate` and call
`setState`, so the host completes the re-render (`hostUpdateDone`) and only
then `componentDidUpdate` notifies the nested subscriptions. -/
def onStateChange : ContainerTree → List UIEvent
  | .node id su children =>
      UIEvent.selectorRun id ::
        ((if su then [UIEvent.hostUpdateDone id] else []) ++ notifyNestedSubs children)

/-- Modelled from the spec: `Subscription.notifyNestedSubs` — the
`Subscription` class itself is not among the sources, only its caller
`connectAdvanced`; per §4.4 of the spec it invokes every child
subscription's listener (each child container's `onStateChange`) in
registration order. -/
def notifyNestedSubs : ContainerForest → List UIEvent
  | .nil => []
  | .cons c rest => onStateChange c ++ notifyNestedSubs rest
end

def rootId : ContainerTree → Nat
  | .node i _ _ => i

def rootSU : ContainerTree → Bool
  | .node _ su _ => su

def rootChildren : ContainerTree → ContainerForest
  | .node _ _ ch => ch

/-- Membership of a container among the children of a forest. -/
def memF : ContainerForest → ContainerTree → Prop
  | .nil, _ => False
  | .cons c rest, x => x = c ∨ memF rest x

mutual
/-- Tree `s` occurs as a subtree of `t`. -/
def subtreeT : ContainerTree → ContainerTree → Prop
  | .node i su ch, s => s = .node i su ch ∨ subtreeF ch s
/-- Tree `s` occurs as a subtree of some tree of the forest. -/
def subtreeF : ContainerForest → ContainerTree → Prop
  | .nil, _ => False
  | .cons c rest, s => subtreeT c s ∨ subtreeF rest s
end

/-- A child's full notification trace is an ordered sublist of its
forest's notification trace. -/
theorem memF_trace : ∀ (f : ContainerForest) (c : ContainerTree), memF f c →
    (onStateChange c).Sublist (notifyNestedSubs f)
  | .cons x rest, c, h => by
      have h2 : c = x ∨ memF rest c := h
      rw [notifyNestedSubs]
      rcases h2 with heq | htail
      · rw [heq]
        exact List.sublist_append_left _ _
      · exact (memF_trace rest c htail).trans (List.sublist_append_right _ _)

/-- Every container's trace starts with its own selector recompute. -/
theorem onStateChange_head : ∀ (c : ContainerTree),
    ∃ tl, onStateChange c = UIEvent.selectorRun (rootId c) :: tl
  | .node i su ch => ⟨_, by rw [onStateChange, rootId]⟩

mutual
/-- Ordered event patterns inside a subtree's trace survive in the whole
tree's trace. -/
theorem subtree_trace_tree : ∀ (t p : ContainerTree) (ev : List UIEvent),
    subtreeT t p → ev.Sublist (onStateChange p) → ev.Sublist (onStateChange t)
  | .node i su ch, p, ev, hsub, hev => by
      have h2 : p = ContainerTree.node i su ch ∨ subtreeF ch p := hsub
      rcases h2 with heq | hf
      · rw [← heq]
        exact hev
      · have h3 := subtree_trace_forest ch p ev hf hev
        rw [onStateChange]
        exact List.Sublist.cons _ (h3.trans (List.sublist_append_right _ _))
/-- Forest version of `subtree_trace_tree`. -/
theorem subtree_trace_forest : ∀ (f : ContainerForest) (p : ContainerTree)
    (ev : List UIEvent),
    subtreeF f p → ev.Sublist (onStateChange p) → ev.Sublist (notifyNestedSubs f)
  | .cons c rest, p, ev, hsub, hev => by
      have h2 : subtreeT c p ∨ subtreeF rest p := hsub
      rw [notifyNestedSubs]
      rcases h2 with hT | hF
      · exact (subtree_trace_tree c p ev hT hev).trans (List.sublist_append_left _ _)
      · exact (subtree_trace_forest rest p ev hF hev).trans
          (List.sublist_append_right _ _)
end

/-- At the parent itself: the parent's recompute (and, when it re-renders,
its host-update completion) precedes each direct child's recompute. -/
theorem onStateChange_root_child (i : Nat) (su : Bool) (ch : ContainerForest)
    (c : ContainerTree) (hc : memF ch c) :
    ([UIEvent.selectorRun i, UIEvent.selectorRun (rootId c)]).Sublist
        (onStateChange (.node i su ch)) ∧
    (su = true →
      ([UIEvent.selectorRun i, UIEvent.hostUpdateDone i,
        UIEvent.selectorRun (rootId c)]).Sublist (onStateChange (.node i su ch))) := by
  obtain ⟨tl, htl⟩ := onStateChange_head c
  have hmem : UIEvent.selectorRun (rootId c) ∈ notifyNestedSubs ch :=
    (memF_trace ch c hc).subset (htl ▸ List.mem_cons_self _ _)
  constructor
  · rw [onStateChange]
    exact List.Sublist.cons₂ _
      (List.singleton_sublist.mpr (List.mem_append_right _ hmem))
  · intro hsu
    rw [onStateChange, hsu]
    simp only [if_true]
    exact List.Sublist.cons₂ _ (List.Sublist.cons₂ _
      (List.singleton_sublist.mpr hmem))

/-- C8: for any container tree, any subtree `p` and any direct child `c` of
`p`: in the linear trace of a store notification, `p`'s selector recompute
occurs before `c`'s selector recompute, and when `p` re-renders, `c`'s
recompute moreover occurs only after `p`'s host update has completed. -/
theorem parent_before_child_notification (t p c : ContainerTree)
    (hsub : subtreeT t p) (hchild : memF (rootChildren p) c) :
    ([UIEvent.selectorRun (rootId p), UIEvent.selectorRun (rootId c)]).Sublist
        (onStateChange t) ∧
    (rootSU p = true →
      ([UIEvent.selectorRun (rootId p), UIEvent.hostUpdateDone (rootId p),
        UIEvent.selectorRun (rootId c)]).Sublist (onStateChange t)) := by
  obtain ⟨i, su, ch⟩ := p
  have base := onStateChange_root_child i su ch c hchild
  exact ⟨subtree_trace_tree t _ _ hsub base.1,
    fun hsu => subtree_trace_tree t _ _ hsub (base.2 hsu)⟩

/-- C8 witness: parent 0 (which re-renders) with child 1. -/
theorem parent_before_child_notification_witness :
    subtreeT (.node 0 true (.cons (.node 1 false .nil) .nil))
      (.node 0 true (.cons (.node 1 false .nil) .nil)) ∧
    memF (rootChildren (.node 0 true (.cons (.node 1 false .nil) .nil)))
      (.node 1 false .nil) ∧
    ([UIEvent.selectorRun 0, UIEvent.hostUpdateDone 0,
      UIEvent.selectorRun 1]).Sublist
        (onStateChange (.node 0 true (.cons (.node 1 false .nil) .nil))) := by
  refine ⟨Or.inl rfl, Or.inl rfl, ?_⟩
  exact (parent_before_child_notification
    (.node 0 true (.cons (.node 1 false .nil) .nil))
    (.node 0 true (.cons (.node 1 false .nil) .nil))
    (.node 1 false .nil) (Or.inl rfl) (Or.inl rfl)).2 rfl

/-! ### Listener snapshot semantics (C7) -/

/-- Invariant of the store's listener bookkeeping: no duplicate listener
entries, the per-subscription `isSubscribed` flags in sync with membership
in `nextListeners`, and aliased list references holding equal lists. -/
def StoreInv {σ : Type} (st : Store σ) : Prop :=
  st.active.Nodup ∧ st.nextListeners.Nodup ∧
  (∀ x ∈ st.active, x ∈ st.nextListeners) ∧
  (∀ x ∈ st.nextListeners, x ∈ st.active) ∧
  (st.nextIsCurrent = true → st.nextListeners = st.currentListeners)

/-- The effects fired during one notification loop are admissible: any
newly subscribed listener id is fresh with respect to the `isSubscribed`
flags and is subscribed by only one listener of the loop. -/
def EffectsOK (spec : Nat → LEffect) (L : List Nat) (active : List Nat) : Prop :=
  ∀ j ∈ L, ∀ m, spec j = LEffect.sub m →
    m ∉ active ∧ ∀ k ∈ L, spec k = LEffect.sub m → k = j

/-- When the listener is present, `indexOf` + `splice` remove exactly its
first occurrence. -/
theorem removeListener_eq_erase (t : Nat) (l : List Nat) (h : t ∈ l) :
    removeListener t l = l.erase t := by
  induction l with
  | nil => simp at h
  | cons x xs ih =>
      unfold removeListener
      rw [List.findIdx?_cons]
      by_cases hx : x = t
      · subst hx
        simp [List.eraseIdx]
      · have hxt : (x == t) = false := by simp [hx]
        have hmemt : t ∈ xs := by
          rcases List.mem_cons.mp h with h1 | h2
          · exact absurd h1.symm hx
          · exact h2
        rw [hxt, if_neg (by simp), List.findIdx?_succ]
        cases hfind : xs.findIdx? (fun y => y == t) with
        | none =>
            have := List.findIdx?_eq_none_iff.mp hfind t hmemt
            simp at this
        | some i =>
            have hih := ih hmemt
            unfold removeListener at hih
            rw [hfind] at hih
            simp only [Option.map_some']
            rw [List.eraseIdx_cons_succ, List.erase_cons_tail (by simp [hx])]
            have hih2 : xs.eraseIdx i = xs.erase t := hih
            rw [hih2]

/-- Under the aliasing invariant, `ensureCanMutateNextListeners` only
clears the aliasing flag (copying an aliased list is the identity on the
list value). -/
theorem ensure_eq {σ : Type} (st : Store σ)
    (h : st.nextIsCurrent = true → st.nextListeners = st.currentListeners) :
    ensureCanMutateNextListeners st = { st with nextIsCurrent := false } := by
  unfold ensureCanMutateNextListeners
  split
  · rename_i hf
    rw [← h hf]
  · rename_i hf
    have hflag : st.nextIsCurrent = false := by simpa using hf
    obtain ⟨cs, cl, nl, nic, ac, flg⟩ := st
    simp only at hflag
    rw [hflag]

/-- Function `subscribe` under the aliasing invariant: mark the flag, append the
listener to `nextListeners`, de-alias. -/
theorem subscribeListener_eq {σ : Type} (id : Nat) (st : Store σ)
    (h : st.nextIsCurrent = true → st.nextListeners = st.currentListeners) :
    subscribeListener id st
      = { st with active := id :: st.active,
                  nextListeners := st.nextListeners ++ [id], nextIsCurrent := false } := by
  unfold subscribeListener
  rw [ensure_eq { st with active := id :: st.active } h]

/-- Function `unsubscribe` of a currently subscribed listener: clear its flag, erase
its first occurrence from `nextListeners`, de-alias. -/
theorem unsubscribeListener_eq_mem {σ : Type} (t : Nat) (st : Store σ)
    (h : st.nextIsCurrent = true → st.nextListeners = st.currentListeners)
    (hmem : t ∈ st.active) (htn : t ∈ st.nextListeners) :
    unsubscribeListener t st
      = { st with active := st.active.erase t,
                  nextListeners := st.nextListeners.erase t, nextIsCurrent := false } := by
  unfold unsubscribeListener
  rw [if_pos hmem, ensure_eq { st with active := st.active.erase t } h]
  show { st with active := st.active.erase t,
                 nextListeners := removeListener t st.nextListeners,
                 nextIsCurrent := false } = _
  rw [removeListener_eq_erase t _ htn]

/-- Full characterisation of `unsubscribe` under the invariant. -/
theorem unsubscribeListener_char {σ : Type} (t : Nat) (st : Store σ)
    (hInv : StoreInv st) :
    (unsubscribeListener t st).active = st.active.erase t ∧
    (unsubscribeListener t st).nextListeners = st.nextListeners.erase t ∧
    StoreInv (unsubscribeListener t st) := by
  obtain ⟨hA, hN, hAN, hNA, hNI⟩ := hInv
  by_cases hmem : t ∈ st.active
  · have htn := hAN t hmem
    rw [unsubscribeListener_eq_mem t st hNI hmem htn]
    refine ⟨rfl, rfl, hA.erase t, hN.erase t, ?_, ?_, ?_⟩
    · intro x hx
      obtain ⟨hxt, hxA⟩ := (hA.mem_erase_iff).mp hx
      exact (hN.mem_erase_iff).mpr ⟨hxt, hAN x hxA⟩
    · intro x hx
      obtain ⟨hxt, hxN⟩ := (hN.mem_erase_iff).mp hx
      exact (hA.mem_erase_iff).mpr ⟨hxt, hNA x hxN⟩
    · intro hflag
      exact absurd hflag (by simp)
  · have htn : t ∉ st.nextListeners := fun hx => hmem (hNA t hx)
    unfold unsubscribeListener
    rw [if_neg hmem, List.erase_of_not_mem hmem, List.erase_of_not_mem htn]
    exact ⟨rfl, rfl, hA, hN, hAN, hNA, hNI⟩

/-- Full characterisation of `subscribe` of a fresh listener under the
invariant. -/
theorem subscribeListener_char {σ : Type} (m : Nat) (st : Store σ)
    (hInv : StoreInv st) (hfresh : m ∉ st.active) :
    (subscribeListener m st).active = m :: st.active ∧
    (subscribeListener m st).nextListeners = st.nextListeners ++ [m] ∧
    StoreInv (subscribeListener m st) := by
  obtain ⟨hA, hN, hAN, hNA, hNI⟩ := hInv
  have hmn : m ∉ st.nextListeners := fun hx => hfresh (hNA m hx)
  rw [subscribeListener_eq m st hNI]
  refine ⟨rfl, rfl, (List.nodup_cons).mpr ⟨hfresh, hA⟩, ?_, ?_, ?_, ?_⟩
  · exact hN.append (List.nodup_singleton m)
      (fun a ha ham => hmn (by rw [List.mem_singleton.mp ham] at ha; exact ha))
  · intro x hx
    rcases List.mem_cons.mp hx with rfl | hxa
    · exact List.mem_append_right _ (by simp)
    · exact List.mem_append_left _ (hAN x hxa)
  · intro x hx
    rcases List.mem_append.mp hx with hxn | hxm
    · exact List.mem_cons_of_mem _ (hNA x hxn)
    · rw [List.mem_singleton.mp hxm]
      exact List.mem_cons_self _ _
  · intro hflag
    exact absurd hflag (by simp)

/-- One loop step preserves the invariant and the admissibility of the
remaining effects. -/
theorem applyEffect_step {σ : Type} (spec : Nat → LEffect) (st : Store σ)
    (j : Nat) (L1 : List Nat) (hInv : StoreInv st)
    (hOK : EffectsOK spec (j :: L1) st.active) (hND : (j :: L1).Nodup) :
    StoreInv (applyEffect spec st j) ∧
    EffectsOK spec L1 (applyEffect spec st j).active ∧ L1.Nodup := by
  have hndTail : L1.Nodup := (List.nodup_cons.mp hND).2
  have hjL : j ∉ L1 := (List.nodup_cons.mp hND).1
  cases hspec : spec j with
  | pure =>
      refine ⟨by simpa [applyEffect, hspec] using hInv, ?_, hndTail⟩
      intro j1 hj1 m hm
      obtain ⟨h1, h2⟩ := hOK j1 (List.mem_cons_of_mem _ hj1) m hm
      exact ⟨by simpa [applyEffect, hspec] using h1,
        fun k hk hsk => h2 k (List.mem_cons_of_mem _ hk) hsk⟩
  | unsub u =>
      have char := unsubscribeListener_char u st hInv
      refine ⟨by simpa [applyEffect, hspec] using char.2.2, ?_, hndTail⟩
      intro j1 hj1 m hm
      obtain ⟨h1, h2⟩ := hOK j1 (List.mem_cons_of_mem _ hj1) m hm
      refine ⟨?_, fun k hk hsk => h2 k (List.mem_cons_of_mem _ hk) hsk⟩
      simp only [applyEffect, hspec, char.1]
      intro hmem
      exact h1 (List.mem_of_mem_erase hmem)
  | sub m0 =>
      have hm0 := hOK j (List.mem_cons_self _ _) m0 hspec
      have char := subscribeListener_char m0 st hInv hm0.1
      refine ⟨by simpa [applyEffect, hspec] using char.2.2, ?_, hndTail⟩
      intro j1 hj1 m hm
      obtain ⟨h1, h2⟩ := hOK j1 (List.mem_cons_of_mem _ hj1) m hm
      refine ⟨?_, fun k hk hsk => h2 k (List.mem_cons_of_mem _ hk) hsk⟩
      simp only [applyEffect, hspec, char.1]
      intro hmem
      rcases List.mem_cons.mp hmem with rfl | hmA
      · have hj1j := hm0.2 j1 (List.mem_cons_of_mem _ hj1) hm
        exact hjL (hj1j ▸ hj1)
      · exact h1 hmA

/-- The invariant survives the whole notification loop. -/
theorem foldl_applyEffect_inv {σ : Type} (spec : Nat → LEffect) :
    ∀ (L : List Nat) (st : Store σ), StoreInv st → EffectsOK spec L st.active →
      L.Nodup → StoreInv (L.foldl (applyEffect spec) st)
  | [], _, hInv, _, _ => hInv
  | j :: L1, st, hInv, hOK, hND => by
      have step := applyEffect_step spec st j L1 hInv hOK hND
      exact foldl_applyEffect_inv spec L1 _ step.1 step.2.1 step.2.2

/-- A listener absent from `nextListeners` that nobody subscribes stays
absent through the loop. -/
theorem foldl_applyEffect_not_mem {σ : Type} (spec : Nat → LEffect) (t : Nat) :
    ∀ (L : List Nat) (st : Store σ), StoreInv st → EffectsOK spec L st.active →
      L.Nodup → (∀ j ∈ L, spec j ≠ LEffect.sub t) → t ∉ st.nextListeners →
      t ∉ (L.foldl (applyEffect spec) st).nextListeners
  | [], _, _, _, _, _, ht => ht
  | j :: L1, st, hInv, hOK, hND, hno, ht => by
      have step := applyEffect_step spec st j L1 hInv hOK hND
      refine foldl_applyEffect_not_mem spec t L1 _ step.1 step.2.1 step.2.2
        (fun k hk => hno k (List.mem_cons_of_mem _ hk)) ?_
      cases hspec : spec j with
      | pure => simpa [applyEffect, hspec] using ht
      | unsub u =>
          have char := unsubscribeListener_char u st hInv
          simp only [applyEffect, hspec, char.2.1]
          intro hmem
          exact ht (List.mem_of_mem_erase hmem)
      | sub m =>
          have hmfresh : m ∉ st.active := (hOK j (List.mem_cons_self _ _) m hspec).1
          have char := subscribeListener_char m st hInv hmfresh
          simp only [applyEffect, hspec, char.2.1]
          have hne : t ≠ m := by
            rintro rfl
            exact (hno j (List.mem_cons_self _ _)) hspec
          simp [List.mem_append, ht, hne]

/-- A listener present in `nextListeners` that nobody unsubscribes stays
present through the loop. -/
theorem foldl_applyEffect_mem {σ : Type} (spec : Nat → LEffect) (t : Nat) :
    ∀ (L : List Nat) (st : Store σ), StoreInv st → EffectsOK spec L st.active →
      L.Nodup → (∀ j ∈ L, spec j ≠ LEffect.unsub t) → t ∈ st.nextListeners →
      t ∈ (L.foldl (applyEffect spec) st).nextListeners
  | [], _, _, _, _, _, ht => ht
  | j :: L1, st, hInv, hOK, hND, hno, ht => by
      have step := applyEffect_step spec st j L1 hInv hOK hND
      refine foldl_applyEffect_mem spec t L1 _ step.1 step.2.1 step.2.2
        (fun k hk => hno k (List.mem_cons_of_mem _ hk)) ?_
      cases hspec : spec j with
      | pure => simpa [applyEffect, hspec] using ht
      | unsub u =>
          have char := unsubscribeListener_char u st hInv
          have hne : t ≠ u := by
            rintro rfl
            exact (hno j (List.mem_cons_self _ _)) hspec
          simp only [applyEffect, hspec, char.2.1]
          exact (hInv.2.1.mem_erase_iff).mpr ⟨hne, ht⟩
      | sub m =>
          have hmfresh : m ∉ st.active := (hOK j (List.mem_cons_self _ _) m hspec).1
          have char := subscribeListener_char m st hInv hmfresh
          simp only [applyEffect, hspec, char.2.1]
          exact List.mem_append_left _ ht

/-- A listener that some loop member unsubscribes, and that nobody
subscribes, is gone from `nextListeners` after the loop. -/
theorem foldl_applyEffect_unsub {σ : Type} (spec : Nat → LEffect) (t : Nat) :
    ∀ (L : List Nat) (st : Store σ), StoreInv st → EffectsOK spec L st.active →
      L.Nodup → (∀ j ∈ L, spec j ≠ LEffect.sub t) →
      (∃ j ∈ L, spec j = LEffect.unsub t) →
      t ∉ (L.foldl (applyEffect spec) st).nextListeners
  | [], _, _, _, _, _, hex => by simp at hex
  | j :: L1, st, hInv, hOK, hND, hno, hex => by
      have step := applyEffect_step spec st j L1 hInv hOK hND
      by_cases hj : spec j = LEffect.unsub t
      · have char := unsubscribeListener_char t st hInv
        have hnext : t ∉ (applyEffect spec st j).nextListeners := by
          simp only [applyEffect, hj, char.2.1]
          intro hmem
          exact ((hInv.2.1.mem_erase_iff).mp hmem).1 rfl
        exact foldl_applyEffect_not_mem spec t L1 _ step.1 step.2.1 step.2.2
          (fun k hk => hno k (List.mem_cons_of_mem _ hk)) hnext
      · obtain ⟨j2, hj2, hsp⟩ := hex
        have hj2t : j2 ∈ L1 := by
          rcases List.mem_cons.mp hj2 with rfl | h
          · exact absurd hsp hj
          · exact h
        exact foldl_applyEffect_unsub spec t L1 _ step.1 step.2.1 step.2.2
          (fun k hk => hno k (List.mem_cons_of_mem _ hk)) ⟨j2, hj2t, hsp⟩

/-- A listener that some loop member subscribes, and that nobody
unsubscribes, is in `nextListeners` after the loop. -/
theorem foldl_applyEffect_sub {σ : Type} (spec : Nat → LEffect) (n : Nat) :
    ∀ (L : List Nat) (st : Store σ), StoreInv st → EffectsOK spec L st.active →
      L.Nodup → (∀ j ∈ L, spec j ≠ LEffect.unsub n) →
      (∃ j ∈ L, spec j = LEffect.sub n) →
      n ∈ (L.foldl (applyEffect spec) st).nextListeners
  | [], _, _, _, _, _, hex => by simp at hex
  | j :: L1, st, hInv, hOK, hND, hno, hex => by
      have step := applyEffect_step spec st j L1 hInv hOK hND
      by_cases hj : spec j = LEffect.sub n
      · have hnfresh : n ∉ st.active := (hOK j (List.mem_cons_self _ _) n hj).1
        have char := subscribeListener_char n st hInv hnfresh
        have hnext : n ∈ (applyEffect spec st j).nextListeners := by
          simp only [applyEffect, hj, char.2.1]
          exact List.mem_append_right _ (by simp)
        exact foldl_applyEffect_mem spec n L1 _ step.1 step.2.1 step.2.2
          (fun k hk => hno k (List.mem_cons_of_mem _ hk)) hnext
      · obtain ⟨j2, hj2, hsp⟩ := hex
        have hj2t : j2 ∈ L1 := by
          rcases List.mem_cons.mp hj2 with rfl | h
          · exact absurd hsp hj
          · exact h
        exact foldl_applyEffect_sub spec n L1 _ step.1 step.2.1 step.2.2
          (fun k hk => hno k (List.mem_cons_of_mem _ hk)) ⟨j2, hj2t, hsp⟩

/-- A successful dispatch in full: the snapshot `const listeners =
currentListeners = nextListeners` is taken, the listeners of the snapshot —
and only they — are invoked, and their effects are folded over the store. -/
theorem dispatch_ok_fold {σ : Type} (f : σ → JSAction → σ) (spec : Nat → LEffect)
    (st : Store σ) (a : JSAction)
    (hwf : wellFormedAction a) (hd : st.isDispatching = false) :
    dispatch (fun s b => (Except.ok (f s b) : Except Unit σ)) spec st a
      = (st.nextListeners.foldl (applyEffect spec)
          { st with currentState := f st.currentState a, isDispatching := false,
                    currentListeners := st.nextListeners, nextIsCurrent := true },
         st.nextListeners, .ok a) := by
  obtain ⟨hp, ht⟩ := hwf
  have htn : (actionType a).isNone = false := by
    cases h : actionType a <;> simp_all
  unfold dispatch
  simp [hp, htn, hd]

/-- Starting a dispatch re-aliases `currentListeners` to `nextListeners`,
which keeps the invariant. -/
theorem storeInv_dispatch_start {σ : Type} (st : Store σ) (s1 : σ)
    (hInv : StoreInv st) :
    StoreInv { st with currentState := s1, isDispatching := false,
                       currentListeners := st.nextListeners, nextIsCurrent := true } := by
  obtain ⟨h1, h2, h3, h4, _⟩ := hInv
  exact ⟨h1, h2, h3, h4, fun _ => rfl⟩

/-- C7: with admissible listener effects, (i) dispatch N invokes exactly the
listeners snapshotted at its start, each at most once — so a listener
unsubscribed during dispatch N does not fire again on that dispatch; (ii) a
listener unsubscribed during dispatch N (and not re-subscribed) never fires
on dispatch N+1; (iii) a listener subscribed during dispatch N (and not
unsubscribed) does not fire on dispatch N but does fire on dispatch N+1. -/
theorem listener_snapshot_semantics {σ : Type} (f : σ → JSAction → σ)
    (spec : Nat → LEffect) (st : Store σ) (a a2 : JSAction) (t n : Nat)
    (hInv : StoreInv st) (hd : st.isDispatching = false)
    (hwf : wellFormedAction a) (hwf2 : wellFormedAction a2)
    (hOK : EffectsOK spec st.nextListeners st.active) :
    (dispatch (fun s b => (Except.ok (f s b) : Except Unit σ)) spec st a).2.1
        = st.nextListeners ∧
    (∀ x, ((dispatch (fun s b => (Except.ok (f s b) : Except Unit σ))
        spec st a).2.1).count x ≤ 1) ∧
    ((∃ j ∈ st.nextListeners, spec j = LEffect.unsub t) →
      (∀ j ∈ st.nextListeners, spec j ≠ LEffect.sub t) →
      t ∉ (dispatch (fun s b => (Except.ok (f s b) : Except Unit σ)) spec
            (dispatch (fun s b => (Except.ok (f s b) : Except Unit σ))
              spec st a).1 a2).2.1) ∧
    ((∃ j ∈ st.nextListeners, spec j = LEffect.sub n) →
      (∀ j ∈ st.nextListeners, spec j ≠ LEffect.unsub n) →
      n ∉ (dispatch (fun s b => (Except.ok (f s b) : Except Unit σ))
            spec st a).2.1 ∧
      n ∈ (dispatch (fun s b => (Except.ok (f s b) : Except Unit σ)) spec
            (dispatch (fun s b => (Except.ok (f s b) : Except Unit σ))
              spec st a).1 a2).2.1) := by
  have hfold := dispatch_ok_fold f spec st a hwf hd
  have hND : st.nextListeners.Nodup := hInv.2.1
  have hInv1 : StoreInv
      { st with currentState := f st.currentState a, isDispatching := false,
                currentListeners := st.nextListeners, nextIsCurrent := true } :=
    storeInv_dispatch_start st _ hInv
  have hdF : (st.nextListeners.foldl (applyEffect spec)
      { st with currentState := f st.currentState a, isDispatching := false,
                currentListeners := st.nextListeners,
                nextIsCurrent := true }).isDispatching = false :=
    (foldl_applyEffect_core spec st.nextListeners _).2.1
  have hfold2 := dispatch_ok_fold f spec
    (st.nextListeners.foldl (applyEffect spec)
      { st with currentState := f st.currentState a, isDispatching := false,
                currentListeners := st.nextListeners, nextIsCurrent := true })
    a2 hwf2 hdF
  refine ⟨by rw [hfold], ?_, ?_, ?_⟩
  · intro x
    rw [hfold]
    exact List.nodup_iff_count_le_one.mp hND x
  · intro hex hno
    rw [hfold]
    show t ∉ (dispatch _ spec _ a2).2.1
    rw [hfold2]
    show t ∉ (st.nextListeners.foldl (applyEffect spec) _).nextListeners
    exact foldl_applyEffect_unsub spec t st.nextListeners _ hInv1 hOK hND hno hex
  · intro hex hno
    constructor
    · rw [hfold]
      intro hmem
      obtain ⟨j, hj, hsp⟩ := hex
      exact (hOK j hj n hsp).1 (hInv.2.2.2.1 n hmem)
    · rw [hfold]
      show n ∈ (dispatch _ spec _ a2).2.1
      rw [hfold2]
      show n ∈ (st.nextListeners.foldl (applyEffect spec) _).nextListeners
      exact foldl_applyEffect_sub spec n st.nextListeners _ hInv1 hOK hND hno hex

/-- A concrete store for exercising snapshot semantics: three subscribed
listeners 10, 11, 12, lists aliased, mid-dispatch flag clear. -/
def snapshotDemoStore : Store Nat :=
  { currentState := 0, currentListeners := [10, 11, 12],
    nextListeners := [10, 11, 12], nextIsCurrent := true,
    active := [10, 11, 12], isDispatching := false }

/-- Listener 10 unsubscribes listener 11; listener 12 subscribes a new
listener 13; listener 11 does nothing. -/
def snapshotDemoSpec : Nat → LEffect :=
  fun j => if j = 10 then .unsub 11 else if j = 12 then .sub 13 else .pure

/-- C7 witness: on dispatch N all of 10, 11, 12 fire (11 fires although 10
unsubscribed it first — it was snapshotted); on dispatch N+1, 11 no longer
fires and the newly subscribed 13 fires. -/
theorem listener_snapshot_semantics_witness :
    StoreInv snapshotDemoStore ∧
    EffectsOK snapshotDemoSpec [10, 11, 12] [10, 11, 12] ∧
    (dispatch (fun s _ => (Except.ok (s + 1) : Except Unit Nat)) snapshotDemoSpec
        snapshotDemoStore (JSAction.plain (some "A") 0)).2.1 = [10, 11, 12] ∧
    11 ∉ (dispatch (fun s _ => (Except.ok (s + 1) : Except Unit Nat)) snapshotDemoSpec
        (dispatch (fun s _ => (Except.ok (s + 1) : Except Unit Nat)) snapshotDemoSpec
          snapshotDemoStore (JSAction.plain (some "A") 0)).1
        (JSAction.plain (some "B") 0)).2.1 ∧
    13 ∉ (dispatch (fun s _ => (Except.ok (s + 1) : Except Unit Nat)) snapshotDemoSpec
        snapshotDemoStore (JSAction.plain (some "A") 0)).2.1 ∧
    13 ∈ (dispatch (fun s _ => (Except.ok (s + 1) : Except Unit Nat)) snapshotDemoSpec
        (dispatch (fun s _ => (Except.ok (s + 1) : Except Unit Nat)) snapshotDemoSpec
          snapshotDemoStore (JSAction.plain (some "A") 0)).1
        (JSAction.plain (some "B") 0)).2.1 := by
  have hInv : StoreInv snapshotDemoStore := by
    unfold StoreInv snapshotDemoStore
    exact ⟨by decide, by decide, by decide, by decide, by decide⟩
  have h10 : snapshotDemoSpec 10 = LEffect.unsub 11 := by decide
  have h11 : snapshotDemoSpec 11 = LEffect.pure := by decide
  have h12 : snapshotDemoSpec 12 = LEffect.sub 13 := by decide
  have hOK : EffectsOK snapshotDemoSpec [10, 11, 12] [10, 11, 12] := by
    intro j hj m hm
    fin_cases hj
    · rw [h10] at hm
      cases hm
    · rw [h11] at hm
      cases hm
    · rw [h12] at hm
      injection hm with hm1
      subst hm1
      refine ⟨by decide, ?_⟩
      intro k hk hks
      fin_cases hk
      · rw [h10] at hks
        cases hks
      · rw [h11] at hks
        cases hks
      · rfl
  have main := listener_snapshot_semantics (fun s _ => s + 1) snapshotDemoSpec
    snapshotDemoStore (JSAction.plain (some "A") 0) (JSAction.plain (some "B") 0)
    11 13 hInv rfl (by decide) (by decide) hOK
  refine ⟨hInv, hOK, main.1, ?_, ?_, ?_⟩
  · exact main.2.2.1 ⟨10, by decide, by decide⟩ (by decide)
  · exact (main.2.2.2 ⟨12, by decide, by decide⟩ (by decide)).1
  · exact (main.2.2.2 ⟨12, by decide, by decide⟩ (by decide)).2

end Spec2Proof
